import Mathlib

/-!
Verification of the pipeline-orchestration state machine implemented in
`src/orchestrator/scripts/orchestrator.py`.

The Python class `Orchestrator` wires a state machine with states
`analyze_query, select_pipeline, check_dependencies, invoke_skill,
handle_output, iterate_on_error, complete` and the transition table of
`__init__` (lines 25-34).  The state-entry callbacks
(`on_enter_check_dependencies`, `on_enter_invoke_skill`,
`on_enter_iterate_on_error`) immediately fire further transitions, so a
whole run is a deterministic loop over machine configurations, driven by
the `__main__` block (lines 110-121).  External effects (the dependency
installer subprocess of line 70 and the capability subprocess of line 89)
are modelled by an oracle `Env` indexed by the number of calls made so
far; everything else is translated directly from the source.
-/

/-- Machine states, exactly the list `Orchestrator.states` (line 14). -/
inductive SName where
  | analyze_query
  | select_pipeline
  | check_dependencies
  | invoke_skill
  | handle_output
  | iterate_on_error
  | complete
deriving DecidableEq, Repr

/-- Shared working context `self.data`: a key-value mapping from string
keys to values (the JSON dictionary), modelled extensionally. -/
def Ctx (V : Type) : Type := String → Option V

/-- The empty context, `self.data = {}` of `__init__` (line 20). -/
def emptyCtx (V : Type) : Ctx V := fun _ => none

/-- The merge `self.data.update(json.load(f))` of line 92: every key
present in the new dictionary overwrites the old binding, keys absent
from the new dictionary are left unchanged (Python `dict.update`). -/
def dictUpdate {V : Type} (c new : Ctx V) : Ctx V :=
  fun k =>
    match new k with
    | some v => some v
    | none => c k

/-- Whether the character list `pat` occurs contiguously inside `l`
(Python substring membership `pat in s`). -/
def listContains (l pat : List Char) : Bool :=
  match l with
  | [] => pat.isEmpty
  | a :: t => pat.isPrefixOf (a :: t) || listContains t pat

/-- Python `pat in s.lower()` for an already-lowercase pattern, as used by
`pipeline_selected` (lines 42-46). -/
def strContainsSub (s pat : String) : Bool :=
  listContains (s.data.map Char.toLower) pat.data

/-- Modelled from the spec: the catalog file
`orchestrator/references/pipelines.yaml` is not part of the sources; per
spec section 2 and 6 it is a static mapping from pipeline name to an
ordered list of capability identifiers.  The code looks up exactly the
keys `pdf_processing`, `dev_workflow` and `diagram_creation`
(lines 43-47), so those three entries are the fields. -/
structure Catalog where
  pdf_processing : List String
  dev_workflow : List String
  diagram_creation : List String

/-- The pipeline that `pipeline_selected` (lines 36-50) assigns to
`self.pipeline`: hard-coded checks `'pdf' in query.lower()`, then
`'dev'`, then `'diagram'`, else the empty list. -/
def selectedPipeline (cat : Catalog) (query : String) : List String :=
  if strContainsSub query "pdf" then cat.pdf_processing
  else if strContainsSub query "dev" then cat.dev_workflow
  else if strContainsSub query "diagram" then cat.diagram_creation
  else []

/-- Return value of `pipeline_selected` (line 50): `bool(self.pipeline)`. -/
def pipeline_selected (cat : Catalog) (query : String) : Bool :=
  !(selectedPipeline cat query).isEmpty

/-- Modelled from the spec: an ordered catalog entry as described in
spec section 4.1 ("a fixed set of trigger terms per catalog entry",
entries tried in declaration order).  Used only to state the
spec-side selection policy for comparison with `selectedPipeline`. -/
structure CatalogEntry where
  pname : String
  triggers : List String
  steps : List String

/-- Modelled from the spec, section 4.1: case-insensitive substring match
of each entry trigger terms against the request, first matching entry in
catalog declaration order wins, empty selection when nothing matches. -/
def selectBySpecOrder (cat : List CatalogEntry) (query : String) : List String :=
  match cat.find? (fun e => e.triggers.any (fun t => strContainsSub query t)) with
  | some e => e.steps
  | none => []

/-- The dependency table `skill_deps` of `on_enter_check_dependencies`
(lines 61-66). -/
def skill_deps (skill : String) : List String :=
  if skill = "pdf" then ["pdftotext"]
  else if skill = "code-review" then ["ruff"]
  else if skill = "dev-workflow" then ["git"]
  else if skill = "recursive-context" then ["pdftotext"]
  else []

/-- Result of one capability invocation (line 89): exit code 0 with a
handoff document that deserializes to a dictionary, exit code 0 with an
undeserializable handoff (then `json.load` at line 92 raises), or a
non-zero exit with captured standard-error text. -/
inductive InvokeResult (V : Type) where
  | ok (out : Ctx V)
  | badJson
  | err (stderr : String)

/-- Oracle for the external world: the result of the n-th capability
invocation (0-based, counted over the whole run) and the success of the
installer subprocess for dependency `d` during the n-th dependency
check. -/
structure Env (V : Type) where
  invoke : Nat → InvokeResult V
  installOk : Nat → String → Bool

/-- The fixed handoff location `Path('/tmp/orchestrator_data.json')` of
line 83, recomputed identically on every invocation. -/
def tempFilePath : String := "/tmp/orchestrator_data.json"

/-- A machine configuration: the mutable fields of the `Orchestrator`
object (the spec PipelineInstance), plus instrumentation counters for
invocations, dependency checks and the handoff paths used. -/
structure Conf (V : Type) where
  pipeline : List String
  current_skill_index : Nat
  data : Ctx V
  max_retries : Nat
  retries : Nat
  last_error : Option String
  state : SName
  invocations : Nat
  depChecks : Nat
  trace : List String

/-- Guard `has_next_skill` (lines 52-53). -/
def has_next_skill {V : Type} (c : Conf V) : Bool :=
  c.current_skill_index < c.pipeline.length

/-- Guard `can_retry` (lines 55-56). -/
def can_retry {V : Type} (c : Conf V) : Bool :=
  c.retries < c.max_retries

/-- The fields set by `__init__` (lines 16-24): empty pipeline before
selection, cursor 0, empty data, `max_retries = 3`, no retries yet, no
recorded error, machine in its pre-selection state. -/
def initialConf (V : Type) (pl : List String) : Conf V :=
  { pipeline := pl
    current_skill_index := 0
    data := emptyCtx V
    max_retries := 3
    retries := 0
    last_error := none
    state := SName.select_pipeline
    invocations := 0
    depChecks := 0
    trace := [] }

/-- Terminal result of a run: normal termination with the final
configuration, an uncaught Python exception (with the configuration at
the raise point), or exhaustion of the step budget of the bounded
interpreter. -/
inductive Outcome (V : Type) where
  | finished (c : Conf V)
  | raised (msg : String) (c : Conf V)
  | outOfFuel (c : Conf V)

/-- Configuration carried by an outcome. -/
def Outcome.conf {V : Type} : Outcome V → Conf V
  | .finished c => c
  | .raised _ c => c
  | .outOfFuel c => c

/-- Message of an uncaught exception, if the run raised one. -/
def Outcome.raisedMsg {V : Type} : Outcome V → Option String
  | .raised m _ => some m
  | _ => none

/-- One atomic step of the cascade. -/
inductive StepOut (V : Type) where
  | cont (c : Conf V)
  | halt (o : Outcome V)

/-- One state-entry callback of the machine, translated from the source:

* `check_dependencies` runs `on_enter_check_dependencies` (lines 58-76):
  reads `self.pipeline[self.current_skill_index]` (IndexError when out of
  range), runs the installer for each declared dependency, and fires the
  `deps_ok` transition to `invoke_skill` when all succeed, else the
  `deps_fail` transition to `iterate_on_error`.
* `invoke_skill` runs `on_enter_invoke_skill` (lines 78-97): serializes
  `self.data` to the fixed temp path, spawns the capability, and on exit
  code 0 merges the handoff back with `dict.update`, advances the cursor
  and jumps to `handle_output`; on non-zero exit it records
  `result.stderr` in `last_error` and jumps to `iterate_on_error`; when
  the handoff does not deserialize, `json.load` raises and the exception
  escapes uncaught.
* `handle_output` is the driver firing `success` (line 120): to
  `check_dependencies` when `has_next_skill`, else to `complete`.
* `iterate_on_error` runs `on_enter_iterate_on_error` (lines 99-108):
  increments `retries`, then fires `retry` back to `check_dependencies`
  when `can_retry`, else `fail` to `complete`.
* `complete` is terminal: the driver loop (line 116) exits. -/
def stepOnce {V : Type} (env : Env V) (c : Conf V) : StepOut V :=
  match c.state with
  | SName.check_dependencies =>
    match c.pipeline[c.current_skill_index]? with
    | none => StepOut.halt (Outcome.raised "IndexError" c)
    | some skill =>
      let all_ok := (skill_deps skill).all (fun d => env.installOk c.depChecks d)
      if all_ok then
        StepOut.cont { c with state := SName.invoke_skill, depChecks := c.depChecks + 1 }
      else
        StepOut.cont { c with state := SName.iterate_on_error, depChecks := c.depChecks + 1 }
  | SName.invoke_skill =>
    match c.pipeline[c.current_skill_index]? with
    | none => StepOut.halt (Outcome.raised "IndexError" c)
    | some _skill =>
      let c1 := { c with invocations := c.invocations + 1, trace := c.trace ++ [tempFilePath] }
      match env.invoke c.invocations with
      | InvokeResult.ok out =>
        StepOut.cont { c1 with
          data := dictUpdate c.data out
          current_skill_index := c.current_skill_index + 1
          state := SName.handle_output }
      | InvokeResult.badJson =>
        StepOut.halt (Outcome.raised "JSONDecodeError" c1)
      | InvokeResult.err stderr =>
        StepOut.cont { c1 with last_error := some stderr, state := SName.iterate_on_error }
  | SName.handle_output =>
    if has_next_skill c then StepOut.cont { c with state := SName.check_dependencies }
    else StepOut.cont { c with state := SName.complete }
  | SName.iterate_on_error =>
    let c1 := { c with retries := c.retries + 1 }
    if can_retry c1 then StepOut.cont { c1 with state := SName.check_dependencies }
    else StepOut.cont { c1 with state := SName.complete }
  | SName.complete => StepOut.halt (Outcome.finished c)
  | SName.analyze_query => StepOut.halt (Outcome.finished c)
  | SName.select_pipeline => StepOut.halt (Outcome.finished c)

/-- Bounded iteration of `stepOnce`; the budget only bounds the
interpreter, every run of the source machine terminates within
`3 * pipeline.length + 2 * max_retries + 2` steps. -/
def run {V : Type} (env : Env V) : Nat → Conf V → Outcome V
  | 0, c => Outcome.outOfFuel c
  | fuel + 1, c =>
    match stepOnce env c with
    | StepOut.halt o => o
    | StepOut.cont c2 => run env fuel c2

/-- The `__main__` block (lines 110-121): `analyze()` moves the machine
to `select_pipeline`; when `pipeline_selected()` holds, `select()` moves
it to `check_dependencies` and the callback cascade plus the driver loop
run the machine to its end; otherwise the program prints and exits with
the machine still in `select_pipeline`. -/
def orchestrateMain {V : Type} (env : Env V) (cat : Catalog) (query : String)
    (fuel : Nat) : Outcome V :=
  let pl := selectedPipeline cat query
  if pipeline_selected cat query then
    run env fuel { initialConf V pl with state := SName.check_dependencies }
  else
    Outcome.finished (initialConf V pl)

/-- Reachability between configurations along continuing steps of the
machine under a fixed environment. -/
def Reach {V : Type} (env : Env V) : Conf V → Conf V → Prop :=
  Relation.ReflTransGen (fun a b => stepOnce env a = StepOut.cont b)

/-- Invariant instrumenting the handoff protocol: every recorded handoff
path is the fixed temp path, and one path is recorded per invocation. -/
def TraceInv {V : Type} (c : Conf V) : Prop :=
  c.trace.all (fun p => p = tempFilePath) = true ∧ c.trace.length = c.invocations

/-- Concrete catalog used for witnesses: the three pipelines the code
looks up, with the diagram pipeline of the spec concrete scenario. -/
def catA : Catalog :=
  { pdf_processing := ["extract"]
    dev_workflow := ["commit"]
    diagram_creation := ["render", "verify"] }

/-- Concrete catalog with a single-step diagram pipeline. -/
def catB : Catalog :=
  { pdf_processing := ["extract"]
    dev_workflow := ["commit"]
    diagram_creation := ["render"] }

/-- Ordered catalog matching `catA` entry for entry, declared with the
diagram pipeline first; used to compare catalog declaration order against
the hard-coded order of `selectedPipeline`. -/
def specCatOrder : List CatalogEntry :=
  [{ pname := "diagram_creation", triggers := ["diagram"], steps := ["render", "verify"] },
   { pname := "dev_workflow", triggers := ["dev"], steps := ["commit"] },
   { pname := "pdf_processing", triggers := ["pdf"], steps := ["extract"] }]

/-- Environment in which every invocation fails with diagnostic `boom`
and every dependency install succeeds. -/
def envAllFail : Env Nat :=
  { invoke := fun _ => InvokeResult.err "boom"
    installOk := fun _ _ => true }

/-- Environment in which every invocation succeeds with an empty output
dictionary and every dependency install succeeds. -/
def envAllOk : Env Nat :=
  { invoke := fun _ => InvokeResult.ok (fun _ => none)
    installOk := fun _ _ => true }

/-- Environment in which the first invocation fails and all later ones
succeed; every dependency install succeeds. -/
def envFailOnce : Env Nat :=
  { invoke := fun n => if n = 0 then InvokeResult.err "boom" else InvokeResult.ok (fun _ => none)
    installOk := fun _ _ => true }

/-- Environment in which every invocation exits with code 0 but leaves an
undeserializable handoff document; every dependency install succeeds. -/
def envBadJson : Env Nat :=
  { invoke := fun _ => InvokeResult.badJson
    installOk := fun _ _ => true }

/-- Concrete configuration about to invoke its only step. -/
def cInvoke : Conf Nat :=
  { pipeline := ["render"]
    current_skill_index := 0
    data := emptyCtx Nat
    max_retries := 3
    retries := 0
    last_error := none
    state := SName.invoke_skill
    invocations := 0
    depChecks := 1
    trace := [] }

/-- Concrete context binding key `a`. -/
def ctxA : Ctx Nat := fun k => if k = "a" then some 1 else none

/-- Concrete step output binding key `b`. -/
def outB : Ctx Nat := fun k => if k = "b" then some 2 else none

theorem run_cont {V : Type} (env : Env V) (f : Nat) (c c2 : Conf V)
    (h : stepOnce env c = StepOut.cont c2) :
    run env (f + 1) c = run env f c2 := by
  simp [run, h]

theorem run_halt {V : Type} (env : Env V) (f : Nat) (c : Conf V) (o : Outcome V)
    (h : stepOnce env c = StepOut.halt o) :
    run env (f + 1) c = o := by
  simp [run, h]

theorem stepOnce_cd {V : Type} (env : Env V) (c : Conf V) (skill : String)
    (hst : c.state = SName.check_dependencies)
    (hget : c.pipeline[c.current_skill_index]? = some skill)
    (hall : (skill_deps skill).all (fun d => env.installOk c.depChecks d) = true) :
    stepOnce env c = StepOut.cont { c with state := SName.invoke_skill, depChecks := c.depChecks + 1 } := by
  simp [stepOnce, hst, hget, hall]

theorem stepOnce_inv_ok {V : Type} (env : Env V) (c : Conf V) (skill : String) (out : Ctx V)
    (hst : c.state = SName.invoke_skill)
    (hget : c.pipeline[c.current_skill_index]? = some skill)
    (hout : env.invoke c.invocations = InvokeResult.ok out) :
    stepOnce env c = StepOut.cont { c with
      invocations := c.invocations + 1
      trace := c.trace ++ [tempFilePath]
      data := dictUpdate c.data out
      current_skill_index := c.current_skill_index + 1
      state := SName.handle_output } := by
  simp [stepOnce, hst, hget, hout]

theorem stepOnce_ho_next {V : Type} (env : Env V) (c : Conf V)
    (hst : c.state = SName.handle_output)
    (hn : c.current_skill_index < c.pipeline.length) :
    stepOnce env c = StepOut.cont { c with state := SName.check_dependencies } := by
  simp [stepOnce, hst, has_next_skill, hn]

theorem stepOnce_ho_done {V : Type} (env : Env V) (c : Conf V)
    (hst : c.state = SName.handle_output)
    (hn : ¬ c.current_skill_index < c.pipeline.length) :
    stepOnce env c = StepOut.cont { c with state := SName.complete } := by
  simp [stepOnce, hst, has_next_skill, hn]

theorem stepOnce_complete {V : Type} (env : Env V) (c : Conf V)
    (hst : c.state = SName.complete) :
    stepOnce env c = StepOut.halt (Outcome.finished c) := by
  simp [stepOnce, hst]

theorem run_all_ok {V : Type} (env : Env V)
    (hdeps : ∀ n d, env.installOk n d = true)
    (hok : ∀ n, ∃ out, env.invoke n = InvokeResult.ok out) :
    ∀ (m : Nat) (c : Conf V) (fuel : Nat),
    c.state = SName.check_dependencies →
    c.current_skill_index + m = c.pipeline.length →
    1 ≤ m → 3 * m + 1 ≤ fuel →
    ∃ c2, run env fuel c = Outcome.finished c2 ∧
      c2.state = SName.complete ∧
      c2.current_skill_index = c.pipeline.length ∧
      c2.pipeline = c.pipeline ∧
      c2.invocations = c.invocations + m ∧
      c2.retries = c.retries ∧
      c2.max_retries = c.max_retries := by
  intro m
  induction m with
  | zero => intro c fuel _ _ h1 _; omega
  | succ m ih =>
    intro c fuel hst hlen _ hfuel
    have hcur : c.current_skill_index < c.pipeline.length := by omega
    have hget : c.pipeline[c.current_skill_index]? = some (c.pipeline[c.current_skill_index]) :=
      List.getElem?_eq_getElem hcur
    obtain ⟨out, hout⟩ := hok c.invocations
    have hall : ∀ n s, ((skill_deps s).all (fun d => env.installOk n d)) = true :=
      fun n s => List.all_eq_true.mpr fun d _ => hdeps n d
    obtain ⟨f, rfl, hf⟩ : ∃ f, fuel = f + 3 ∧ 3 * m + 1 ≤ f :=
      ⟨fuel - 3, by omega, by omega⟩
    have s1 : stepOnce env c =
        StepOut.cont { c with state := SName.invoke_skill, depChecks := c.depChecks + 1 } :=
      stepOnce_cd env c _ hst hget (hall _ _)
    have s2 : stepOnce env { c with state := SName.invoke_skill, depChecks := c.depChecks + 1 } =
        StepOut.cont { c with
          state := SName.handle_output
          depChecks := c.depChecks + 1
          invocations := c.invocations + 1
          trace := c.trace ++ [tempFilePath]
          data := dictUpdate c.data out
          current_skill_index := c.current_skill_index + 1 } :=
      stepOnce_inv_ok env _ (c.pipeline[c.current_skill_index]) out rfl hget hout
    rw [show f + 3 = f + 1 + 1 + 1 from rfl]
    rw [run_cont env _ _ _ s1, run_cont env _ _ _ s2]
    rcases Nat.eq_zero_or_pos m with hm | hm
    · subst hm
      have hdone : ¬ (c.current_skill_index + 1 < c.pipeline.length) := by omega
      have s3 : stepOnce env { c with
          state := SName.handle_output
          depChecks := c.depChecks + 1
          invocations := c.invocations + 1
          trace := c.trace ++ [tempFilePath]
          data := dictUpdate c.data out
          current_skill_index := c.current_skill_index + 1 } =
          StepOut.cont { c with
            state := SName.complete
            depChecks := c.depChecks + 1
            invocations := c.invocations + 1
            trace := c.trace ++ [tempFilePath]
            data := dictUpdate c.data out
            current_skill_index := c.current_skill_index + 1 } :=
        stepOnce_ho_done env _ rfl hdone
      obtain ⟨g, rfl⟩ : ∃ g, f = g + 1 := ⟨f - 1, by omega⟩
      rw [run_cont env _ _ _ s3]
      rw [run_halt env _ _ _ (stepOnce_complete env _ rfl)]
      exact ⟨_, rfl, rfl, show c.current_skill_index + 1 = c.pipeline.length by omega, rfl,
        show c.invocations + 1 = c.invocations + (0 + 1) by omega, rfl, rfl⟩
    · have hnext : c.current_skill_index + 1 < c.pipeline.length := by omega
      have s3 : stepOnce env { c with
          state := SName.handle_output
          depChecks := c.depChecks + 1
          invocations := c.invocations + 1
          trace := c.trace ++ [tempFilePath]
          data := dictUpdate c.data out
          current_skill_index := c.current_skill_index + 1 } =
          StepOut.cont { c with
            state := SName.check_dependencies
            depChecks := c.depChecks + 1
            invocations := c.invocations + 1
            trace := c.trace ++ [tempFilePath]
            data := dictUpdate c.data out
            current_skill_index := c.current_skill_index + 1 } :=
        stepOnce_ho_next env _ rfl hnext
      rw [run_cont env _ _ _ s3]
      obtain ⟨c2, hrun, hc2st, hc2cur, hc2pl, hc2inv, hc2ret, hc2max⟩ :=
        ih { c with
          state := SName.check_dependencies
          depChecks := c.depChecks + 1
          invocations := c.invocations + 1
          trace := c.trace ++ [tempFilePath]
          data := dictUpdate c.data out
          current_skill_index := c.current_skill_index + 1 } f rfl
          (show c.current_skill_index + 1 + m = c.pipeline.length by omega) hm hf
      refine ⟨c2, hrun, hc2st, hc2cur, hc2pl, ?_, hc2ret, hc2max⟩
      have h2 : c2.invocations = c.invocations + 1 + m := hc2inv
      omega

theorem orchestrate_all_ok {V : Type} (env : Env V) (cat : Catalog) (query : String)
    (hdeps : ∀ n d, env.installOk n d = true)
    (hok : ∀ n, ∃ out, env.invoke n = InvokeResult.ok out)
    (hne : selectedPipeline cat query ≠ [])
    (fuel : Nat) (hfuel : 3 * (selectedPipeline cat query).length + 1 ≤ fuel) :
    ∃ c, orchestrateMain env cat query fuel = Outcome.finished c ∧
      c.state = SName.complete ∧
      c.current_skill_index = (selectedPipeline cat query).length ∧
      c.pipeline = selectedPipeline cat query ∧
      c.invocations = (selectedPipeline cat query).length ∧
      c.retries = 0 ∧
      c.max_retries = 3 := by
  have hps : pipeline_selected cat query = true := by
    simp [pipeline_selected, hne]
  have hlen : 1 ≤ (selectedPipeline cat query).length := by
    cases h : selectedPipeline cat query with
    | nil => exact absurd h hne
    | cons a t => simp
  obtain ⟨c2, hrun, h1, h2, h3, h4, h5, h6⟩ :=
    run_all_ok env hdeps hok (selectedPipeline cat query).length
      { initialConf V (selectedPipeline cat query) with state := SName.check_dependencies }
      fuel rfl (by simp [initialConf]) hlen hfuel
  refine ⟨c2, ?_, h1, h2, h3, by simpa [initialConf] using h4, h5, h6⟩
  simpa [orchestrateMain, hps] using hrun

theorem stepOnce_preserves {V : Type} (env : Env V) (c c2 : Conf V)
    (h : stepOnce env c = StepOut.cont c2) :
    (c.current_skill_index ≤ c.pipeline.length → c2.current_skill_index ≤ c2.pipeline.length) ∧
    c2.pipeline = c.pipeline ∧
    (∀ k, (c.data k).isSome = true → (c2.data k).isSome = true) := by
  cases hst : c.state
  case analyze_query => simp [stepOnce, hst] at h
  case select_pipeline => simp [stepOnce, hst] at h
  case complete => simp [stepOnce, hst] at h
  case check_dependencies =>
    cases hget : c.pipeline[c.current_skill_index]? with
    | none => simp [stepOnce, hst, hget] at h
    | some skill =>
      rcases hok : ((skill_deps skill).all (fun d => env.installOk c.depChecks d)) with _ | _ <;>
        · simp [stepOnce, hst, hget, hok] at h
          subst h
          exact ⟨fun hle => hle, rfl, fun k hk => hk⟩
  case handle_output =>
    rcases hn : has_next_skill c with _ | _ <;>
      · simp [stepOnce, hst, hn] at h
        subst h
        exact ⟨fun hle => hle, rfl, fun k hk => hk⟩
  case iterate_on_error =>
    by_cases hr : c.retries + 1 < c.max_retries
    · simp [stepOnce, hst, can_retry, hr] at h
      subst h
      exact ⟨fun hle => hle, rfl, fun k hk => hk⟩
    · simp [stepOnce, hst, can_retry, hr] at h
      subst h
      exact ⟨fun hle => hle, rfl, fun k hk => hk⟩
  case invoke_skill =>
    cases hget : c.pipeline[c.current_skill_index]? with
    | none => simp [stepOnce, hst, hget] at h
    | some skill =>
      cases hres : env.invoke c.invocations with
      | ok out =>
        simp [stepOnce, hst, hget, hres] at h
        subst h
        have hcur : c.current_skill_index < c.pipeline.length := by
          have := List.getElem?_eq_some.mp hget
          exact this.1
        refine ⟨fun _ => by simpa using hcur, rfl, fun k hk => ?_⟩
        show (dictUpdate c.data out k).isSome = true
        simp only [dictUpdate]
        cases out k <;> simp_all
      | badJson => simp [stepOnce, hst, hget, hres] at h
      | err e =>
        simp [stepOnce, hst, hget, hres] at h
        subst h
        exact ⟨fun hle => hle, rfl, fun k hk => hk⟩

theorem stepOnce_trace {V : Type} (env : Env V) (c : Conf V) (hc : TraceInv c) :
    (∀ c2, stepOnce env c = StepOut.cont c2 → TraceInv c2) ∧
    (∀ o, stepOnce env c = StepOut.halt o → TraceInv o.conf) := by
  obtain ⟨hall, hlen⟩ := hc
  constructor
  · intro c2 h
    cases hst : c.state
    case analyze_query => simp [stepOnce, hst] at h
    case select_pipeline => simp [stepOnce, hst] at h
    case complete => simp [stepOnce, hst] at h
    case check_dependencies =>
      cases hget : c.pipeline[c.current_skill_index]? with
      | none => simp [stepOnce, hst, hget] at h
      | some skill =>
        by_cases hok : ((skill_deps skill).all (fun d => env.installOk c.depChecks d)) = true
        · simp [stepOnce, hst, hget, hok] at h
          subst h; exact ⟨hall, hlen⟩
        · simp [stepOnce, hst, hget, Bool.of_not_eq_true hok] at h
          subst h; exact ⟨hall, hlen⟩
    case handle_output =>
      by_cases hn : c.current_skill_index < c.pipeline.length
      · simp [stepOnce, hst, has_next_skill, hn] at h
        subst h; exact ⟨hall, hlen⟩
      · simp [stepOnce, hst, has_next_skill, hn] at h
        subst h; exact ⟨hall, hlen⟩
    case iterate_on_error =>
      by_cases hr : c.retries + 1 < c.max_retries
      · simp [stepOnce, hst, can_retry, hr] at h
        subst h; exact ⟨hall, hlen⟩
      · simp [stepOnce, hst, can_retry, hr] at h
        subst h; exact ⟨hall, hlen⟩
    case invoke_skill =>
      cases hget : c.pipeline[c.current_skill_index]? with
      | none => simp [stepOnce, hst, hget] at h
      | some skill =>
        cases hres : env.invoke c.invocations with
        | ok out =>
          simp [stepOnce, hst, hget, hres] at h
          subst h
          refine ⟨?_, ?_⟩
          · show (c.trace ++ [tempFilePath]).all (fun p => p = tempFilePath) = true
            simp [List.all_append, hall]
          · show (c.trace ++ [tempFilePath]).length = c.invocations + 1
            simp [hlen]
        | badJson => simp [stepOnce, hst, hget, hres] at h
        | err e =>
          simp [stepOnce, hst, hget, hres] at h
          subst h
          refine ⟨?_, ?_⟩
          · show (c.trace ++ [tempFilePath]).all (fun p => p = tempFilePath) = true
            simp [List.all_append, hall]
          · show (c.trace ++ [tempFilePath]).length = c.invocations + 1
            simp [hlen]
  · intro o h
    cases hst : c.state
    case analyze_query =>
      simp [stepOnce, hst] at h
      subst h; exact ⟨hall, hlen⟩
    case select_pipeline =>
      simp [stepOnce, hst] at h
      subst h; exact ⟨hall, hlen⟩
    case complete =>
      simp [stepOnce, hst] at h
      subst h; exact ⟨hall, hlen⟩
    case check_dependencies =>
      cases hget : c.pipeline[c.current_skill_index]? with
      | none =>
        simp [stepOnce, hst, hget] at h
        subst h; exact ⟨hall, hlen⟩
      | some skill =>
        by_cases hok : ((skill_deps skill).all (fun d => env.installOk c.depChecks d)) = true
        · simp [stepOnce, hst, hget, hok] at h
        · simp [stepOnce, hst, hget, Bool.of_not_eq_true hok] at h
    case handle_output =>
      by_cases hn : c.current_skill_index < c.pipeline.length
      · simp [stepOnce, hst, has_next_skill, hn] at h
      · simp [stepOnce, hst, has_next_skill, hn] at h
    case iterate_on_error =>
      by_cases hr : c.retries + 1 < c.max_retries
      · simp [stepOnce, hst, can_retry, hr] at h
      · simp [stepOnce, hst, can_retry, hr] at h
    case invoke_skill =>
      cases hget : c.pipeline[c.current_skill_index]? with
      | none =>
        simp [stepOnce, hst, hget] at h
        subst h; exact ⟨hall, hlen⟩
      | some skill =>
        cases hres : env.invoke c.invocations with
        | ok out => simp [stepOnce, hst, hget, hres] at h
        | badJson =>
          simp [stepOnce, hst, hget, hres] at h
          subst h
          refine ⟨?_, ?_⟩
          · show (c.trace ++ [tempFilePath]).all (fun p => p = tempFilePath) = true
            simp [List.all_append, hall]
          · show (c.trace ++ [tempFilePath]).length = c.invocations + 1
            simp [hlen]
        | err e => simp [stepOnce, hst, hget, hres] at h

theorem run_trace {V : Type} (env : Env V) :
    ∀ (fuel : Nat) (c : Conf V), TraceInv c → TraceInv ((run env fuel c).conf) := by
  intro fuel
  induction fuel with
  | zero => intro c hc; exact hc
  | succ f ih =>
    intro c hc
    cases hs : stepOnce env c with
    | halt o =>
      rw [run_halt env f c o hs]
      exact (stepOnce_trace env c hc).2 o hs
    | cont c2 =>
      rw [run_cont env f c c2 hs]
      exact ih c2 ((stepOnce_trace env c hc).1 c2 hs)

/-- Claim C1: for every single-step pipeline whose step fails on every
attempt, with `max_retries = 3` and dependencies always satisfied, the
orchestrator performs exactly `max_retries = 3` invocation attempts
(so two retries after the first attempt), then reaches the terminal
state `complete` with `last_error` populated (a failure detail is
present).  The retry counter itself also ends at 3. -/
theorem C1_single_step_retry_exhaustion {V : Type} (env : Env V) (cat : Catalog)
    (query skill : String)
    (hsel : selectedPipeline cat query = [skill])
    (hdeps : ∀ n d, env.installOk n d = true)
    (hfail : ∀ n, ∃ e, env.invoke n = InvokeResult.err e)
    (fuel : Nat) (hfuel : 10 ≤ fuel) :
    ∃ c, orchestrateMain env cat query fuel = Outcome.finished c ∧
      c.invocations = 3 ∧ c.max_retries = 3 ∧ c.state = SName.complete ∧
      c.last_error ≠ none ∧ c.retries = 3 := by
  obtain ⟨f, rfl⟩ : ∃ f, fuel = f + 10 := ⟨fuel - 10, by omega⟩
  obtain ⟨e0, h0⟩ := hfail 0
  obtain ⟨e1, h1⟩ := hfail 1
  obtain ⟨e2, h2⟩ := hfail 2
  have hall : ∀ n, ((skill_deps skill).all (fun d => env.installOk n d)) = true :=
    fun n => List.all_eq_true.mpr fun d _ => hdeps n d
  have key : orchestrateMain env cat query (f + 10) = Outcome.finished
      { pipeline := [skill], current_skill_index := 0, data := emptyCtx V,
        max_retries := 3, retries := 3, last_error := some e2,
        state := SName.complete, invocations := 3, depChecks := 3,
        trace := [tempFilePath, tempFilePath, tempFilePath] } := by
    simp [orchestrateMain, pipeline_selected, hsel, initialConf, run, stepOnce,
      hall, h0, h1, h2, has_next_skill, can_retry]
  exact ⟨_, key, rfl, rfl, rfl, by simp, rfl⟩

theorem C1_single_step_retry_exhaustion_witness :
    ∃ c, orchestrateMain envAllFail catB "diagram" 30 = Outcome.finished c ∧
      c.invocations = 3 ∧ c.max_retries = 3 ∧ c.state = SName.complete ∧
      c.last_error ≠ none ∧ c.retries = 3 :=
  C1_single_step_retry_exhaustion envAllFail catB "diagram" "render" (by decide)
    (fun _ _ => rfl) (fun _ => ⟨"boom", rfl⟩) 30 (by omega)

/-- Claim C2 counterexample: a single-step pipeline whose step fails once
(`k = 1 < max_retries`) and then succeeds completes with
`retry_count = 1`, not 0: `on_enter_invoke_skill` advances the cursor on
success without ever resetting `self.retries`. -/
theorem C2_retry_count_not_reset_counterexample :
    (orchestrateMain envFailOnce catB "diagram" 30).conf.state = SName.complete ∧
    (orchestrateMain envFailOnce catB "diagram" 30).conf.current_skill_index = 1 ∧
    (orchestrateMain envFailOnce catB "diagram" 30).conf.retries = 1 ∧
    (orchestrateMain envFailOnce catB "diagram" 30).conf.retries ≠ 0 := by
  decide

/-- Claim C2 (amended): the retry counter is never reset when the cursor
advances; for every single-step pipeline whose step fails `k < max_retries`
times and then succeeds (dependencies satisfied), the machine completes
successfully with `cursor = 1` and `retry_count = k` (which equals 0 only
when the step succeeded on the first attempt). -/
theorem C2_retry_count_accumulates {V : Type} (env : Env V) (cat : Catalog)
    (query skill : String)
    (hsel : selectedPipeline cat query = [skill])
    (k : Nat) (hk : k < 3)
    (hdeps : ∀ n d, env.installOk n d = true)
    (hfailk : ∀ n, n < k → ∃ e, env.invoke n = InvokeResult.err e)
    (hsucc : ∃ out, env.invoke k = InvokeResult.ok out)
    (fuel : Nat) (hfuel : 3 * k + 4 ≤ fuel) :
    ∃ c, orchestrateMain env cat query fuel = Outcome.finished c ∧
      c.state = SName.complete ∧
      c.current_skill_index = 1 ∧
      c.retries = k ∧
      c.invocations = k + 1 ∧
      c.max_retries = 3 := by
  have hall : ∀ n, ((skill_deps skill).all (fun d => env.installOk n d)) = true :=
    fun n => List.all_eq_true.mpr fun d _ => hdeps n d
  obtain ⟨out, hout⟩ := hsucc
  interval_cases k
  · obtain ⟨f, rfl⟩ : ∃ f, fuel = f + 4 := ⟨fuel - 4, by omega⟩
    have key : orchestrateMain env cat query (f + 4) = Outcome.finished
        { pipeline := [skill], current_skill_index := 1, data := dictUpdate (emptyCtx V) out,
          max_retries := 3, retries := 0, last_error := none, state := SName.complete,
          invocations := 1, depChecks := 1, trace := [tempFilePath] } := by
      simp [orchestrateMain, pipeline_selected, hsel, initialConf, run, stepOnce,
        hall, hout, has_next_skill, can_retry]
    exact ⟨_, key, rfl, rfl, rfl, rfl, rfl⟩
  · obtain ⟨e0, h0⟩ := hfailk 0 (by omega)
    obtain ⟨f, rfl⟩ : ∃ f, fuel = f + 7 := ⟨fuel - 7, by omega⟩
    have key : orchestrateMain env cat query (f + 7) = Outcome.finished
        { pipeline := [skill], current_skill_index := 1, data := dictUpdate (emptyCtx V) out,
          max_retries := 3, retries := 1, last_error := some e0, state := SName.complete,
          invocations := 2, depChecks := 2, trace := [tempFilePath, tempFilePath] } := by
      simp [orchestrateMain, pipeline_selected, hsel, initialConf, run, stepOnce,
        hall, h0, hout, has_next_skill, can_retry]
    exact ⟨_, key, rfl, rfl, rfl, rfl, rfl⟩
  · obtain ⟨e0, h0⟩ := hfailk 0 (by omega)
    obtain ⟨e1, h1⟩ := hfailk 1 (by omega)
    obtain ⟨f, rfl⟩ : ∃ f, fuel = f + 10 := ⟨fuel - 10, by omega⟩
    have key : orchestrateMain env cat query (f + 10) = Outcome.finished
        { pipeline := [skill], current_skill_index := 1, data := dictUpdate (emptyCtx V) out,
          max_retries := 3, retries := 2, last_error := some e1, state := SName.complete,
          invocations := 3, depChecks := 3,
          trace := [tempFilePath, tempFilePath, tempFilePath] } := by
      simp [orchestrateMain, pipeline_selected, hsel, initialConf, run, stepOnce,
        hall, h0, h1, hout, has_next_skill, can_retry]
    exact ⟨_, key, rfl, rfl, rfl, rfl, rfl⟩

theorem C2_retry_count_accumulates_witness :
    ∃ c, orchestrateMain envFailOnce catB "diagram" 30 = Outcome.finished c ∧
      c.state = SName.complete ∧
      c.current_skill_index = 1 ∧
      c.retries = 1 ∧
      c.invocations = 1 + 1 ∧
      c.max_retries = 3 :=
  C2_retry_count_accumulates envFailOnce catB "diagram" "render" (by decide) 1 (by omega)
    (fun _ _ => rfl) (fun n hn => by interval_cases n; exact ⟨"boom", rfl⟩)
    ⟨fun _ => none, rfl⟩ 30 (by omega)

/-- Claim C3 counterexample: for the request with no matching trigger the
program terminates with the state machine still in `select_pipeline`: it
never reaches the terminal state `complete` (the `__main__` driver skips
the loop entirely when `pipeline_selected()` is false, and no transition
out of `select_pipeline` fires). -/
theorem C3_no_match_counterexample :
    (orchestrateMain envAllOk catA "xyz unrelated" 30).conf.state = SName.select_pipeline ∧
    (orchestrateMain envAllOk catA "xyz unrelated" 30).conf.state ≠ SName.complete ∧
    (orchestrateMain envAllOk catA "xyz unrelated" 30).conf.pipeline = [] ∧
    (orchestrateMain envAllOk catA "xyz unrelated" 30).conf.invocations = 0 := by
  decide

/-- Claim C3 (amended): for every request whose lowercased text matches no
trigger term, the program terminates immediately with `selected_steps`
empty and no step invocation ever occurring, but the machine stops in
`select_pipeline` rather than reaching the terminal state `complete`. -/
theorem C3_no_match_stops_in_select_pipeline {V : Type} (env : Env V) (cat : Catalog)
    (query : String) (hsel : selectedPipeline cat query = []) (fuel : Nat) :
    ∃ c, orchestrateMain env cat query fuel = Outcome.finished c ∧
      c.state = SName.select_pipeline ∧
      c.state ≠ SName.complete ∧
      c.pipeline = [] ∧
      c.invocations = 0 ∧
      c.trace = [] := by
  have hps : pipeline_selected cat query = false := by
    simp [pipeline_selected, hsel]
  refine ⟨initialConf V [], ?_, rfl, by simp [initialConf], rfl, rfl, rfl⟩
  simp [orchestrateMain, hps, hsel]

theorem C3_no_match_stops_in_select_pipeline_witness :
    ∃ c, orchestrateMain envAllOk catA "xyz unrelated" 30 = Outcome.finished c ∧
      c.state = SName.select_pipeline ∧
      c.state ≠ SName.complete ∧
      c.pipeline = [] ∧
      c.invocations = 0 ∧
      c.trace = [] :=
  C3_no_match_stops_in_select_pipeline envAllOk catA "xyz unrelated" (by decide) 30

/-- Claim C4: for every selected pipeline of length N whose steps all
succeed on the first attempt (dependencies satisfied), exactly N step
invocations occur, the cursor equals N at completion, and the retry
counter equals 0 at completion. -/
theorem C4_all_steps_succeed {V : Type} (env : Env V) (cat : Catalog) (query : String)
    (hdeps : ∀ n d, env.installOk n d = true)
    (hok : ∀ n, ∃ out, env.invoke n = InvokeResult.ok out)
    (hne : selectedPipeline cat query ≠ [])
    (fuel : Nat) (hfuel : 3 * (selectedPipeline cat query).length + 1 ≤ fuel) :
    ∃ c, orchestrateMain env cat query fuel = Outcome.finished c ∧
      c.state = SName.complete ∧
      c.current_skill_index = (selectedPipeline cat query).length ∧
      c.invocations = (selectedPipeline cat query).length ∧
      c.retries = 0 := by
  obtain ⟨c, hrun, h1, h2, h3, h4, h5, h6⟩ :=
    orchestrate_all_ok env cat query hdeps hok hne fuel hfuel
  exact ⟨c, hrun, h1, h2, h4, h5⟩

theorem C4_all_steps_succeed_witness :
    ∃ c, orchestrateMain envAllOk catA "diagram" 30 = Outcome.finished c ∧
      c.state = SName.complete ∧
      c.current_skill_index = (selectedPipeline catA "diagram").length ∧
      c.invocations = (selectedPipeline catA "diagram").length ∧
      c.retries = 0 :=
  C4_all_steps_succeed envAllOk catA "diagram" (fun _ _ => rfl)
    (fun _ => ⟨fun _ => none, rfl⟩) (by decide) 30 (by decide)

/-- Claim C5 counterexample: when the capability exits 0 but the handoff
document read back is undeserializable, `json.load` raises and the
exception escapes the step invoker uncaught: the run ends with a raised
`JSONDecodeError`, no diagnostic recorded in `last_error`, no retry
taken, and the machine never reaching `complete`.  So not every step
failure is handled locally as a recoverable StepFailure. -/
theorem C5_deserialization_error_escapes_counterexample :
    (orchestrateMain envBadJson catB "diagram" 30).raisedMsg = some "JSONDecodeError" ∧
    (orchestrateMain envBadJson catB "diagram" 30).conf.last_error = none ∧
    (orchestrateMain envBadJson catB "diagram" 30).conf.retries = 0 ∧
    (orchestrateMain envBadJson catB "diagram" 30).conf.state ≠ SName.complete := by
  decide

/-- Claim C5 (amended): only the non-zero-exit failure is handled locally:
whenever the capability process exits non-zero, the step invoker records
the captured stderr in `last_error` and routes control to
`iterate_on_error` (the retry path) without any exception crossing the
component boundary; an undeserializable handoff after a zero exit instead
raises an uncaught deserialization exception. -/
theorem C5_nonzero_exit_handled_locally {V : Type} (env : Env V) (c : Conf V) (e : String)
    (hst : c.state = SName.invoke_skill)
    (hcur : c.current_skill_index < c.pipeline.length)
    (herr : env.invoke c.invocations = InvokeResult.err e) :
    stepOnce env c = StepOut.cont { c with
      invocations := c.invocations + 1
      trace := c.trace ++ [tempFilePath]
      last_error := some e
      state := SName.iterate_on_error } := by
  have hget : c.pipeline[c.current_skill_index]? = some (c.pipeline[c.current_skill_index]) :=
    List.getElem?_eq_getElem hcur
  simp [stepOnce, hst, hget, herr]

theorem C5_nonzero_exit_handled_locally_witness :
    stepOnce envAllFail cInvoke = StepOut.cont { cInvoke with
      invocations := cInvoke.invocations + 1
      trace := cInvoke.trace ++ [tempFilePath]
      last_error := some "boom"
      state := SName.iterate_on_error } :=
  C5_nonzero_exit_handled_locally envAllFail cInvoke "boom" rfl (by decide) rfl

/-- Claim C6: context merging (`self.data.update(...)` on line 92) is a
shallow deterministic dictionary union: a key present in the step output
overwrites the prior binding, a key absent from the step output is left
unchanged, and merging the same output twice yields the same context as
merging it once. -/
theorem C6_context_merge_semantics {V : Type} (c out : Ctx V) (k : String) :
    (∀ v, out k = some v → dictUpdate c out k = some v) ∧
    (out k = none → dictUpdate c out k = c k) ∧
    dictUpdate (dictUpdate c out) out = dictUpdate c out := by
  refine ⟨fun v h => by simp [dictUpdate, h], fun h => by simp [dictUpdate, h], ?_⟩
  funext k2
  simp only [dictUpdate]
  cases out k2 <;> simp

theorem C6_context_merge_semantics_witness :
    dictUpdate ctxA outB "b" = some 2 ∧ dictUpdate ctxA outB "a" = ctxA "a" :=
  ⟨(C6_context_merge_semantics ctxA outB "b").1 2 (by decide),
   (C6_context_merge_semantics ctxA outB "a").2.1 (by decide)⟩

/-- Claim C7: every configuration reachable in a pipeline run satisfies
the PipelineInstance invariants: the cursor never exceeds the pipeline
length (`0 ≤ cursor` holds by the Nat type), and each further step only
adds or overwrites context keys, never removes one (a key present before
a step is still present after it). -/
theorem C7_pipeline_instance_invariants {V : Type} (env : Env V) (pl : List String)
    (c : Conf V)
    (hreach : Reach env { initialConf V pl with state := SName.check_dependencies } c) :
    c.current_skill_index ≤ c.pipeline.length ∧
    ∀ c2, stepOnce env c = StepOut.cont c2 →
      ∀ k, (c.data k).isSome = true → (c2.data k).isSome = true := by
  refine ⟨?_, fun c2 hstep k => (stepOnce_preserves env c c2 hstep).2.2 k⟩
  induction hreach with
  | refl => simp [initialConf]
  | tail hab hbc ih =>
    rename_i b c3
    obtain ⟨h1, h2, _⟩ := stepOnce_preserves env b c3 hbc
    exact h1 ih

theorem C7_pipeline_instance_invariants_witness :
    ({ initialConf Nat ["render"] with state := SName.check_dependencies } : Conf Nat).current_skill_index ≤
      ({ initialConf Nat ["render"] with state := SName.check_dependencies } : Conf Nat).pipeline.length :=
  (C7_pipeline_instance_invariants envAllFail ["render"] _ Relation.ReflTransGen.refl).1

/-- Claim C8 counterexample: selection does not follow catalog declaration
order.  For a catalog declared with `diagram_creation` first (see
`specCatOrder`, which matches `catA` entry for entry) the spec policy of
section 4.1 selects the diagram pipeline for a query containing both
`pdf` and `diagram`, while the code selects the pdf pipeline: the
tie-break is the hard-coded order of `pipeline_selected`, not the
declaration order. -/
theorem C8_catalog_order_counterexample :
    selectBySpecOrder specCatOrder "make a pdf diagram" = ["render", "verify"] ∧
    selectedPipeline catA "make a pdf diagram" = ["extract"] ∧
    selectedPipeline catA "make a pdf diagram" ≠
      selectBySpecOrder specCatOrder "make a pdf diagram" := by
  decide

/-- Claim C8 (amended): pipeline selection is a case-insensitive substring
match of trigger terms with the fixed hard-coded precedence `pdf`, `dev`,
`diagram` (independent of catalog declaration order).  The concrete
scenario holds: for the request `create a new diagram` against any
catalog whose `diagram_creation` entry is `[render, verify]`,
`selected_steps = [render, verify]`, and if both steps succeed the final
state is `complete` with `cursor = 2`. -/
theorem C8_diagram_scenario_hardcoded_order {V : Type} (env : Env V) (cat : Catalog)
    (hdg : cat.diagram_creation = ["render", "verify"])
    (hdeps : ∀ n d, env.installOk n d = true)
    (hok : ∀ n, ∃ out, env.invoke n = InvokeResult.ok out)
    (fuel : Nat) (hfuel : 7 ≤ fuel) :
    selectedPipeline cat "create a new diagram" = ["render", "verify"] ∧
    ∃ c, orchestrateMain env cat "create a new diagram" fuel = Outcome.finished c ∧
      c.state = SName.complete ∧
      c.current_skill_index = 2 ∧
      c.invocations = 2 ∧
      c.retries = 0 := by
  have h1 : strContainsSub "create a new diagram" "pdf" = false := by decide
  have h2 : strContainsSub "create a new diagram" "dev" = false := by decide
  have h3 : strContainsSub "create a new diagram" "diagram" = true := by decide
  have hsel : selectedPipeline cat "create a new diagram" = ["render", "verify"] := by
    simp [selectedPipeline, h1, h2, h3, hdg]
  refine ⟨hsel, ?_⟩
  obtain ⟨c, hrun, hst, hcur, hpl, hinv, hret, hmax⟩ :=
    orchestrate_all_ok env cat "create a new diagram" hdeps hok
      (by rw [hsel]; simp) fuel (by rw [hsel]; simpa using hfuel)
  rw [hsel] at hcur hinv
  exact ⟨c, hrun, hst, by simpa using hcur, by simpa using hinv, hret⟩

theorem C8_diagram_scenario_hardcoded_order_witness :
    selectedPipeline catA "create a new diagram" = ["render", "verify"] ∧
    ∃ c, orchestrateMain envAllOk catA "create a new diagram" 30 = Outcome.finished c ∧
      c.state = SName.complete ∧
      c.current_skill_index = 2 ∧
      c.invocations = 2 ∧
      c.retries = 0 :=
  C8_diagram_scenario_hardcoded_order envAllOk catA rfl (fun _ _ => rfl)
    (fun _ => ⟨fun _ => none, rfl⟩) 30 (by omega)

/-- Claim C9: for every query, selection follows the fixed hard-coded
precedence `pdf` over `dev` over `diagram`, whatever the catalog holds:
a query containing `pdf` selects the pdf pipeline even if it also
contains `dev` or `diagram`; `dev` wins over `diagram` when `pdf` is
absent; `diagram` is selected only when neither `pdf` nor `dev` occurs. -/
theorem C9_hardcoded_trigger_precedence (cat : Catalog) (query : String) :
    (strContainsSub query "pdf" = true →
      selectedPipeline cat query = cat.pdf_processing) ∧
    (strContainsSub query "pdf" = false → strContainsSub query "dev" = true →
      selectedPipeline cat query = cat.dev_workflow) ∧
    (strContainsSub query "pdf" = false → strContainsSub query "dev" = false →
      strContainsSub query "diagram" = true →
      selectedPipeline cat query = cat.diagram_creation) := by
  refine ⟨fun h => by simp [selectedPipeline, h],
    fun h1 h2 => by simp [selectedPipeline, h1, h2],
    fun h1 h2 h3 => by simp [selectedPipeline, h1, h2, h3]⟩

theorem C9_hardcoded_trigger_precedence_witness :
    selectedPipeline catA "make a pdf diagram" = catA.pdf_processing :=
  (C9_hardcoded_trigger_precedence catA "make a pdf diagram").1 (by decide)

/-- Claim C10: every step invocation serializes the context to and reads
it back from the single fixed path `/tmp/orchestrator_data.json`: in every
run (any environment, catalog, query and budget), the recorded handoff
path of every invocation equals `tempFilePath`, one record per
invocation, and `tempFilePath` is that fixed path, so the same location
is reused for every step of every run. -/
theorem C10_fixed_handoff_path {V : Type} (env : Env V) (cat : Catalog) (query : String)
    (fuel : Nat) :
    ((orchestrateMain env cat query fuel).conf.trace.all (fun p => p = tempFilePath) = true) ∧
    (orchestrateMain env cat query fuel).conf.trace.length =
      (orchestrateMain env cat query fuel).conf.invocations ∧
    tempFilePath = "/tmp/orchestrator_data.json" := by
  by_cases hps : pipeline_selected cat query = true
  · have hinv := run_trace env fuel
      { initialConf V (selectedPipeline cat query) with state := SName.check_dependencies }
      ⟨rfl, rfl⟩
    refine ⟨?_, ?_, rfl⟩
    · simpa [orchestrateMain, hps] using hinv.1
    · simpa [orchestrateMain, hps] using hinv.2
  · have hps2 : pipeline_selected cat query = false := by
      revert hps; cases pipeline_selected cat query <;> simp
    refine ⟨?_, ?_, rfl⟩
    · simp [orchestrateMain, hps2, initialConf, Outcome.conf]
    · simp [orchestrateMain, hps2, initialConf, Outcome.conf]
